import Mathlib

/-!
Shallow embedding of `src/iradio_scrape.py` (repository `brienjohn/iradio-scraper`).

Conventions of the embedding:
* Python exceptions are modelled by `Option`/`Except`: a raising call becomes
  `none` / `.error e`.
* Python `re` patterns `^\d{2}/\d{2}$` and `^\d{2}:\d{2}$` are modelled over
  ASCII digits (`Char.isDigit`); the tokens of this site are ASCII digits, and
  every guard and every conclusion below uses the same predicate, so the
  Unicode-digit / trailing-newline refinements of Python `re` do not affect
  any statement.
* `datetime.date` is modelled by a year/month/day record validated exactly as
  CPython validates it (year 1..9999, proleptic Gregorian calendar); day
  arithmetic (`(a - b).days`) is modelled by a day-number function
  (civil-from-days algorithm, proleptic Gregorian).
* While loops with a strictly advancing cursor are modelled by structural
  recursion on an explicit fuel that is provably sufficient
  (`tokens.length + 1`: every iteration advances the cursor by at least one).
* The function `find_header_and_mode`, called at the first line of the
  in-force `parse_rows`, is defined nowhere in `src/`; it is modelled from the
  spec (see its doc comment).
-/

namespace IRadio

/-! ## Basic string machinery (models of Python `str` operations used) -/

/-- Model of Python's `needle in haystack` (substring containment), prefix test. -/
def listHasStart (needle hay : List Char) : Bool :=
  match needle, hay with
  | [], _ => true
  | _ :: _, [] => false
  | a :: as, b :: bs => a == b && listHasStart as bs

/-- Model of Python's `needle in haystack` (substring containment). -/
def listHasSub (needle : List Char) : List Char → Bool
  | [] => needle.isEmpty
  | c :: rest => listHasStart needle (c :: rest) || listHasSub needle rest

/-- Model of Python's `needle in haystack` on strings. -/
def strContains (hay needle : String) : Bool :=
  listHasSub needle.data hay.data

/-- Model of Python's `str.split(sep)` for a single-character separator. -/
def splitOnChar (sep : Char) : List Char → List (List Char)
  | [] => [[]]
  | c :: rest =>
    let r := splitOnChar sep rest
    if c == sep then [] :: r
    else
      match r with
      | g :: gs => (c :: g) :: gs
      | [] => [[c]]

/-- Model of `mmdd.split("/")` from `mmdd_to_iso`. -/
def splitSlash (s : String) : List String :=
  (splitOnChar '/' s.data).map List.asString

/-- Model of Python's `int(...)` on the strings this program feeds it
(non-empty ASCII digit strings; anything else raises, i.e. `none`). -/
def pyInt (s : String) : Option Nat :=
  match s.data with
  | [] => none
  | cs =>
    if cs.all Char.isDigit then
      some (cs.foldl (fun a c => a * 10 + (c.toNat - 48)) 0)
    else none

/-- Model of `DATE_MMDD_RE = re.compile(r"^\d{2}/\d{2}$")` (line 23). -/
def matchesMMDD (s : String) : Bool :=
  match s.data with
  | [a, b, c, d, e] => a.isDigit && b.isDigit && c == '/' && d.isDigit && e.isDigit
  | _ => false

/-- Model of `TIME_RE = re.compile(r"^\d{2}:\d{2}$")` (line 24). -/
def matchesHHMM (s : String) : Bool :=
  match s.data with
  | [a, b, c, d, e] => a.isDigit && b.isDigit && c == ':' && d.isDigit && e.isDigit
  | _ => false

/-! ## Calendar model (CPython `datetime.date`) -/

/-- Model of a `datetime.date` value: plain year/month/day fields. -/
structure Date where
  year : Nat
  month : Nat
  day : Nat
deriving Repr, DecidableEq

/-- Gregorian leap-year rule, as used by CPython's `datetime`. -/
def isLeap (y : Nat) : Bool :=
  (y % 4 == 0 && y % 100 != 0) || y % 400 == 0

/-- Days in a month of the proleptic Gregorian calendar (for `1 ≤ m ≤ 12`). -/
def daysInMonth (y m : Nat) : Nat :=
  if m = 2 then (if isLeap y then 29 else 28)
  else if m = 4 ∨ m = 6 ∨ m = 9 ∨ m = 11 then 30
  else 31

/-- Validity check the `datetime.date` constructor performs
(`MINYEAR = 1`, `MAXYEAR = 9999`). -/
def dateValid (y m d : Nat) : Bool :=
  1 ≤ y && y ≤ 9999 && 1 ≤ m && m ≤ 12 && 1 ≤ d && d ≤ daysInMonth y m

/-- Model of the `dt.date(y, m, d)` constructor: `none` models `ValueError`. -/
def mkDate (y m d : Nat) : Option Date :=
  if dateValid y m d then some ⟨y, m, d⟩ else none

/-- Day number of a date (civil-from-days algorithm, proleptic Gregorian);
differences of day numbers model `(a - b).days`. -/
def dayNumber (dte : Date) : Nat :=
  let y := if dte.month ≤ 2 then dte.year - 1 else dte.year
  let era := y / 400
  let yoe := y % 400
  let mp := (dte.month + 9) % 12
  let doy := (153 * mp + 2) / 5 + dte.day - 1
  let doe := yoe * 365 + yoe / 4 - yoe / 100 + doy
  era * 146097 + doe

/-- Model of `abs((x - base_date).days)`. -/
def dayDist (a b : Date) : Nat :=
  ((dayNumber a : Int) - (dayNumber b : Int)).natAbs

/-- Left-pad a numeral to two digits. -/
def pad2 (n : Nat) : String :=
  if n < 10 then "0" ++ toString n else toString n

/-- Left-pad a numeral to four digits. -/
def pad4 (n : Nat) : String :=
  if n < 10 then "000" ++ toString n
  else if n < 100 then "00" ++ toString n
  else if n < 1000 then "0" ++ toString n
  else toString n

/-- Model of `date.isoformat()`: `YYYY-MM-DD`. -/
def isoformat (d : Date) : String :=
  pad4 d.year ++ "-" ++ pad2 d.month ++ "-" ++ pad2 d.day

/-- Python's `min(candidates, key=...)` keeps the earliest element on ties:
fold that replaces the current best only on a strictly smaller key. -/
def minByDist (base : Date) (best : Date) : List Date → Date
  | [] => best
  | c :: rest => minByDist base (if dayDist c base < dayDist best base then c else best) rest

/-- Model of `mmdd_to_iso` (src/iradio_scrape.py lines 50-62): split `MM/DD`,
build the three candidates with the base year, year−1, year+1 (each
constructor call may raise, modelled by `none`), pick the candidate nearest
to `base_date`, and render it in ISO form. -/
def mmdd_to_iso (mmdd : String) (base : Date) : Option String :=
  match splitSlash mmdd with
  | [ms, ds] =>
    (pyInt ms).bind fun m =>
    (pyInt ds).bind fun d =>
    (mkDate base.year m d).bind fun c1 =>
    (mkDate (base.year - 1) m d).bind fun c2 =>
    (mkDate (base.year + 1) m d).bind fun c3 =>
    some (isoformat (minByDist base c1 [c2, c3]))
  | _ => none

/-! ## Errors of the embedding -/

/-- Exceptions the modelled program can raise. -/
inductive PyErr where
  | nameError
  | valueError
  | layoutNotRecognized
  | runtimeError
  | outOfFuel
deriving Repr, DecidableEq

/-! ## Records -/

/-- Model of one row dict built by `parse_rows` (keys 日期, 播出時間,
歌曲名稱, 演唱(奏)者, 專輯, 出版者, CD編號). -/
structure Row where
  date : String
  time : String
  song : String
  performer : String
  album : String
  publisher : String
  cdNo : String
deriving Repr, DecidableEq

/-! ## Stop words -/

/-- Model of `NAV_STOP_WORDS` (line 26), used by the in-force `parse_rows`. -/
def NAV_STOP_WORDS : List String :=
  ["上一頁", "下一頁", "官網首頁", "請選擇", "本網站內容屬於"]

/-- Model of `is_stop` of the in-force `parse_rows` (lines 172-173):
`any(w in x for w in NAV_STOP_WORDS)`. -/
def is_stop (x : String) : Bool :=
  NAV_STOP_WORDS.any (fun w => strContains x w)

/-- Local stop-word tuple of the first (shadowed) `parse_rows` (line 90). -/
def STOP_WORDS_V1 : List String :=
  ["上一頁", "下一頁", "官網首頁", "本網站內容屬於", "回到", "TOP"]

/-- Model of `is_stop` of the first (shadowed) `parse_rows` (lines 88-91). -/
def is_stop_v1 (x : String) : Bool :=
  STOP_WORDS_V1.any (fun w => strContains x w)

/-! ## Layout detector (modelled from the spec) -/

/-- Header run of the with-date layout (spec §4.3 and §8 example). -/
def HDR_WITH_DATE : List String := ["日期", "播出時間", "歌曲名稱", "演唱(奏)者"]

/-- Header run of the without-date layout (spec §4.3). -/
def HDR_NO_DATE : List String := ["播出時間", "歌曲名稱", "演唱(奏)者"]

/-- Known column-label tokens (spec §3: date, time, song, performer, album,
publisher, catalog number), skipped when they trail a matched header run. -/
def HEADER_LABELS : List String :=
  ["日期", "播出時間", "歌曲名稱", "演唱(奏)者", "專輯", "出版者", "CD編號"]

/-- Prefix test on token lists. -/
def listStartsWith : List String → List String → Bool
  | [], _ => true
  | _ :: _, [] => false
  | a :: as, b :: bs => a == b && listStartsWith as bs

/-- Count of leading tokens that are known header labels. -/
def countLabels (l : List String) : Nat :=
  (l.takeWhile (fun t => HEADER_LABELS.contains t)).length

/-- Scan left to right for the earliest contiguous known header run; on a
match return the layout tag (`true` = with-date) and the index of the first
data token, skipping trailing label tokens that belong to the header. -/
def findHeaderRun : List String → Option (Bool × Nat)
  | [] => none
  | t :: rest =>
    if listStartsWith HDR_WITH_DATE (t :: rest) then
      some (true, 4 + countLabels ((t :: rest).drop 4))
    else if listStartsWith HDR_NO_DATE (t :: rest) then
      some (false, 3 + countLabels ((t :: rest).drop 3))
    else (findHeaderRun rest).map (fun p => (p.1, p.2 + 1))

/-- First token matching the date or the time pattern, with its index; a
date-pattern token selects the with-date layout, a time-pattern token seen
before any date-pattern token selects the header-less (no-date) layout. -/
def firstPattern : List String → Option (Bool × Nat)
  | [] => none
  | t :: rest =>
    if matchesMMDD t then some (true, 0)
    else if matchesHHMM t then some (false, 0)
    else (firstPattern rest).map (fun p => (p.1, p.2 + 1))

/-- Modelled from the spec: `find_header_and_mode`, called by the in-force
`parse_rows` (line 167) but defined nowhere in `src/`. Spec §4.3: prefer
header detection (earliest contiguous known header run, returning the layout
tag and the index of the first data token after the run and its trailing
label tokens); if no header run is found, infer the layout from the shape of
the first ambiguous token (a time-pattern token before any date-pattern token
implies the header-less layout, a date-pattern token implies the with-date
layout); if neither pattern appears, fail with a layout-not-recognized
condition. -/
def find_header_and_mode (tokens : List String) : Except PyErr (Bool × Nat) :=
  match findHeaderRun tokens with
  | some r => .ok r
  | none =>
    match firstPattern tokens with
    | some r => .ok r
    | none => .error .layoutNotRecognized

/-! ## Record reconstructor, in-force definition (lines 166-238) -/

/-- Extras loop of the in-force `parse_rows` (lines 214-224): consume tokens
until a stop word, a date-pattern token (with-date layout) or a time-pattern
token (without-date layout). -/
def extrasFrom (hasDate : Bool) : List String → List String
  | [] => []
  | t :: rest =>
    if is_stop t then []
    else if hasDate && matchesMMDD t then []
    else if !hasDate && matchesHHMM t then []
    else t :: extrasFrom hasDate rest

/-- While loop of the in-force `parse_rows` (lines 175-235), cursor `idx`,
structural recursion on a fuel that the wrapper instantiates with
`tokens.length + 1` (every iteration advances `idx` by at least one, so that
fuel is never exhausted). -/
def scanLoop (tokens : List String) (base : Date) (hasDate : Bool) :
    Nat → Nat → Except PyErr (List Row)
  | 0, _ => .error .outOfFuel
  | fuel + 1, idx =>
    match tokens.get? idx with
    | none => .ok []
    | some t =>
      if is_stop t then .ok []
      else if hasDate then
        if matchesMMDD t then
          match mmdd_to_iso t base with
          | none => .error .valueError
          | some dIso =>
            match tokens.get? (idx + 1) with
            | none => .ok []
            | some t2 =>
              if matchesHHMM t2 then
                match tokens.get? (idx + 2) with
                | none => .ok []
                | some song =>
                  match tokens.get? (idx + 3) with
                  | none => .ok []
                  | some artist =>
                    let extras := extrasFrom hasDate (tokens.drop (idx + 4))
                    let row : Row :=
                      ⟨dIso, t2, song, artist,
                        extras.getD 0 "", extras.getD 1 "", extras.getD 2 ""⟩
                    match scanLoop tokens base hasDate fuel (idx + 4 + extras.length) with
                    | .error e => .error e
                    | .ok rows => .ok (row :: rows)
              else scanLoop tokens base hasDate fuel (idx + 1)
        else scanLoop tokens base hasDate fuel (idx + 1)
      else
        if matchesHHMM t then
          match tokens.get? (idx + 1) with
          | none => .ok []
          | some song =>
            match tokens.get? (idx + 2) with
            | none => .ok []
            | some artist =>
              let extras := extrasFrom hasDate (tokens.drop (idx + 3))
              let row : Row :=
                ⟨isoformat base, t, song, artist,
                  extras.getD 0 "", extras.getD 1 "", extras.getD 2 ""⟩
              match scanLoop tokens base hasDate fuel (idx + 3 + extras.length) with
              | .error e => .error e
              | .ok rows => .ok (row :: rows)
        else scanLoop tokens base hasDate fuel (idx + 1)

/-- Body of the in-force `parse_rows` (lines 166-238) run with the
spec-modelled `find_header_and_mode`: detect the layout, then scan. -/
def parse_rows_v2 (tokens : List String) (base : Date) : Except PyErr (List Row) :=
  match find_header_and_mode tokens with
  | .error e => .error e
  | .ok (hasDate, idx) => scanLoop tokens base hasDate (tokens.length + 1) idx

/-! ## Record reconstructor, first (shadowed) definition (lines 78-162) -/

/-- Extras loop of the shadowed `parse_rows` (lines 128-137): consume tokens
until a stop word, a time-pattern token or a date-pattern token. -/
def extrasV1 : List String → List String
  | [] => []
  | t :: rest =>
    if is_stop_v1 t || matchesHHMM t || matchesMMDD t then []
    else t :: extrasV1 rest

/-- While loop of the shadowed `parse_rows` (lines 96-153): rolling current
date, a time-pattern token starts a record, song/performer rejected when
date/time-shaped (lines 122-125). -/
def scanLoopV1 (tokens : List String) (base : Date) :
    Nat → Nat → String → Except PyErr (List Row)
  | 0, _, _ => .error .outOfFuel
  | fuel + 1, i, curDate =>
    match tokens.get? i with
    | none => .ok []
    | some t =>
      if is_stop_v1 t then .ok []
      else if matchesMMDD t then
        match mmdd_to_iso t base with
        | none => .error .valueError
        | some d => scanLoopV1 tokens base fuel (i + 1) d
      else if matchesHHMM t then
        match tokens.get? (i + 1) with
        | none => .ok []
        | some song =>
          match tokens.get? (i + 2) with
          | none => .ok []
          | some artist =>
            if matchesHHMM song || matchesMMDD song ||
                matchesHHMM artist || matchesMMDD artist then
              scanLoopV1 tokens base fuel (i + 1) curDate
            else
              let extras := extrasV1 (tokens.drop (i + 3))
              let row : Row :=
                ⟨curDate, t, song, artist,
                  extras.getD 0 "", extras.getD 1 "", extras.getD 2 ""⟩
              match scanLoopV1 tokens base fuel (i + 3 + extras.length) curDate with
              | .error e => .error e
              | .ok rows => .ok (row :: rows)
      else scanLoopV1 tokens base fuel (i + 1) curDate

/-- Model of the first (shadowed) `parse_rows` (lines 78-162); an empty
result raises `ValueError` (line 160). -/
def parse_rows_v1 (tokens : List String) (base : Date) : Except PyErr (List Row) :=
  match scanLoopV1 tokens base (tokens.length + 1) 0 (isoformat base) with
  | .error e => .error e
  | .ok [] => .error .valueError
  | .ok rows => .ok rows

/-! ## Module-level name environment and the in-force `parse_rows` -/

/-- Names bound at the top level of `src/iradio_scrape.py`, in source order:
the imports (lines 1-12) and the module-level assignments and `def`s.
`parse_rows` appears twice (lines 78 and 166). -/
def module_toplevel_names : List String :=
  ["argparse", "dt", "re", "time", "traceback", "Path", "pd", "requests",
   "BeautifulSoup", "urllib3", "BASE_URL", "HEADERS", "DATE_MMDD_RE",
   "TIME_RE", "NAV_STOP_WORDS", "fetch_html", "mmdd_to_iso", "extract_tokens",
   "parse_rows", "parse_rows", "fetch_dt_all_pages", "merge_dedupe", "main"]

/-- The in-force `parse_rows`: the second `def` (line 166) shadows the first,
and its first statement looks up the global name `find_header_and_mode`
(line 167); since that name is bound nowhere at module level, the lookup
raises `NameError` on every call. -/
def parse_rows (tokens : List String) (base : Date) : Except PyErr (List Row) :=
  if module_toplevel_names.contains "find_header_and_mode" then
    parse_rows_v2 tokens base
  else .error .nameError

/-! ## Page walker (lines 241-273) and `main`'s empty check (lines 297-299) -/

/-- Loop body of `fetch_dt_all_pages` over the page numbers still to visit
(`for p in range(1, max_pages + 1)` with breaks): fetch/parse page `p`
(abstracted as the oracle `pages`), stop on an empty batch (keeping nothing
new), append the batch, stop when it holds fewer than five records. Returns
the visited page numbers and the accumulated batches. -/
def walkList (pages : Nat → List Row) : List Nat → List Nat × List (List Row)
  | [] => ([], [])
  | p :: rest =>
    if (pages p).isEmpty then ([p], [])
    else if (pages p).length < 5 then ([p], [pages p])
    else (p :: (walkList pages rest).1, pages p :: (walkList pages rest).2)

/-- Model of `fetch_dt_all_pages` (lines 241-273), the fetch and parse of one
page abstracted as the collaborator oracle `pages`. -/
def fetch_dt_all_pages (pages : Nat → List Row) (maxPages : Nat) :
    List Nat × List (List Row) :=
  walkList pages (List.range' 1 maxPages)

/-- Rows of all accumulated batches (`pd.concat`, line 273). -/
def scrapedRows (pages : Nat → List Row) (maxPages : Nat) : List Row :=
  (fetch_dt_all_pages pages maxPages).2.flatten

/-- Model of `main`'s outcome (lines 297-299): an empty total result raises
`RuntimeError`. -/
def mainResult (pages : Nat → List Row) (maxPages : Nat) : Except PyErr (List Row) :=
  if (scrapedRows pages maxPages).isEmpty then .error .runtimeError
  else .ok (scrapedRows pages maxPages)

/-! ## merge_dedupe (lines 276-284) -/

/-- A data-frame row: association list from column name to cell text. -/
abbrev DRow := List (String × String)

/-- Cell lookup; a column missing from a row reads as the empty string. -/
def cellGet (r : DRow) (c : String) : String :=
  match r.find? (fun p => p.1 == c) with
  | some p => p.2
  | none => ""

/-- Minimal data-frame model: column list and rows. -/
structure DFrame where
  cols : List String
  rows : List DRow
deriving Repr, DecidableEq

/-- The dedupe key columns of `merge_dedupe` (line 283). -/
def KEY_COLS : List String := ["日期", "播出時間", "歌曲名稱", "演唱(奏)者"]

/-- Projection of a row to a list of columns. -/
def projCols (cs : List String) (r : DRow) : List String :=
  cs.map (cellGet r)

/-- Model of `drop_duplicates(..., keep="last")`: a row occurrence is kept
exactly when no later row has the same key; kept rows stay in order. -/
def dedupKeepLast (key : DRow → List String) : List DRow → List DRow
  | [] => []
  | r :: rest =>
    if rest.any (fun s => key s == key r) then dedupKeepLast key rest
    else r :: dedupKeepLast key rest

/-- Model of `pd.concat([old_df, new_df])` (line 279): columns united in
order, rows of the old frame first. -/
def dfConcat (a b : DFrame) : DFrame :=
  ⟨a.cols ++ b.cols.filter (fun c => !a.cols.contains c), a.rows ++ b.rows⟩

/-- Model of `merge_dedupe` (lines 276-284): concatenate the existing frame
(when the CSV exists) with the new one, key on the key columns present in the
combined frame, keep the last occurrence; with no key column present, fall
back to full-row deduplication. -/
def merge_dedupe (existing : Option DFrame) (newDf : DFrame) : DFrame :=
  let combined := match existing with
    | some old => dfConcat old newDf
    | none => newDf
  let keys := KEY_COLS.filter (fun k => combined.cols.contains k)
  if keys.isEmpty then
    ⟨combined.cols, dedupKeepLast (projCols combined.cols) combined.rows⟩
  else
    ⟨combined.cols, dedupKeepLast (projCols keys) combined.rows⟩

/-! ## Text repair (modelled from the spec) -/

/-- CJK ideographic character test (the acceptance guard of the mojibake
repair, spec §4.1). -/
def hasIdeograph (s : String) : Bool :=
  s.data.any (fun c => 0x4E00 ≤ c.toNat && c.toNat ≤ 0x9FFF)

/-- Latin-1-range characters characteristic of double-encoded multi-byte
text (spec §4.1), present while no ideograph is. -/
def looksMojibake (s : String) : Bool :=
  !hasIdeograph s && s.data.any (fun c => 0xA0 ≤ c.toNat && c.toNat ≤ 0xFF)

/-- Carriage returns, newlines and non-breaking spaces become spaces. -/
def normChar (c : Char) : Char :=
  if c == '\r' || c == '\n' || c == '\u00A0' then ' ' else c

/-- Collapse runs of spaces to a single space. -/
def collapseSpaces : List Char → List Char
  | [] => []
  | c :: rest =>
    let r := collapseSpaces rest
    if c == ' ' then
      match r with
      | ' ' :: _ => r
      | _ => c :: r
    else c :: r

/-- Strip leading and trailing spaces. -/
def trimSpaces (l : List Char) : List Char :=
  ((l.dropWhile (· == ' ')).reverse.dropWhile (· == ' ')).reverse

/-- Modelled from the spec (§4.1 contract): whitespace normalization of a
text fragment — CR/LF/NBSP to spaces, runs collapsed, trimmed. -/
def clean_fragment (s : String) : String :=
  (trimSpaces (collapseSpaces (s.data.map normChar))).asString

/-- Modelled from the spec (§4.1): best-effort text repair. The raw
re-decoding of a double-encoded fragment is abstracted as the collaborator
`decode` (a failing decode is `none`); its result is accepted only when it
gains an ideographic character, and any failure falls back silently — the
function is total, modelling "must never raise on malformed input". -/
def fix_text (decode : String → Option String) (s : String) : String :=
  let c := clean_fragment s
  if looksMojibake c then
    match decode c with
    | some t => if hasIdeograph t then t else c
    | none => c
  else c

/-!
## Theorems

Each claim of the frozen claim list gets exactly one theorem (with a witness
when the theorem carries hypotheses, and a counterexample when the claim as
stated fails on the code).
-/

/-- Helper: an ISO-rendered date is never the empty string (it contains the
two dashes). -/
theorem isoformat_ne_empty (d : Date) : isoformat d ≠ "" := by
  intro h
  have hl := congrArg String.length h
  have h1 : ("-" : String).length = 1 := rfl
  simp [isoformat, String.length_append, h1] at hl

/-- Helper: when `mmdd_to_iso` returns a date string, that string is an ISO
rendering, hence non-empty. -/
theorem mmdd_to_iso_ne_empty {s : String} {base : Date} {out : String}
    (h : mmdd_to_iso s base = some out) : out ≠ "" := by
  unfold mmdd_to_iso at h
  split at h
  · simp only [Option.bind_eq_some] at h
    rcases h with ⟨m, hm, d, hd, c1, h1, c2, h2, c3, h3, hout⟩
    cases hout
    exact isoformat_ne_empty _
  · exact absurd h (by simp)

/-- Helper: every row the scan loop of the in-force `parse_rows` emits has a
non-empty date and a time token matching the two-digit `HH:MM` shape. -/
theorem scanLoop_ok_invariant (tokens : List String) (base : Date) (hasDate : Bool) :
    ∀ fuel idx rows, scanLoop tokens base hasDate fuel idx = .ok rows →
    ∀ r ∈ rows, r.date ≠ "" ∧ matchesHHMM r.time = true := by
  intro fuel
  induction fuel with
  | zero => intro idx rows h; simp [scanLoop] at h
  | succ fuel ih =>
    intro idx rows h
    rw [scanLoop] at h
    cases hget : tokens.get? idx with
    | none => rw [hget] at h; cases h; intro r hr; cases hr
    | some t =>
      rw [hget] at h
      by_cases hstop : is_stop t
      · simp only [hstop, if_true] at h; cases h; intro r hr; cases hr
      · simp only [hstop, if_false, Bool.false_eq_true] at h
        cases hasDate with
        | true =>
          by_cases hmm : matchesMMDD t
          · simp only [hmm, if_true] at h
            cases hiso : mmdd_to_iso t base with
            | none => rw [hiso] at h; cases h
            | some dIso =>
              rw [hiso] at h
              cases hget2 : tokens.get? (idx + 1) with
              | none => rw [hget2] at h; cases h; intro r hr; cases hr
              | some t2 =>
                rw [hget2] at h
                by_cases ht2 : matchesHHMM t2
                · simp only [ht2, if_true] at h
                  cases hget3 : tokens.get? (idx + 2) with
                  | none => rw [hget3] at h; cases h; intro r hr; cases hr
                  | some song =>
                    rw [hget3] at h
                    cases hget4 : tokens.get? (idx + 3) with
                    | none => rw [hget4] at h; cases h; intro r hr; cases hr
                    | some artist =>
                      rw [hget4] at h
                      cases hrec : scanLoop tokens base true fuel
                          (idx + 4 + (extrasFrom true (tokens.drop (idx + 4))).length) with
                      | error e => rw [hrec] at h; cases h
                      | ok rows' =>
                        rw [hrec] at h
                        cases h
                        intro r hr
                        rcases List.mem_cons.mp hr with hr1 | hr2
                        · subst hr1
                          exact ⟨mmdd_to_iso_ne_empty hiso, ht2⟩
                        · exact ih _ _ hrec r hr2
                · simp only [ht2, if_false, Bool.false_eq_true] at h
                  exact ih _ _ h
          · simp only [hmm, if_false, Bool.false_eq_true] at h
            exact ih _ _ h
        | false =>
          by_cases htm : matchesHHMM t
          · simp only [htm, if_true] at h
            cases hget2 : tokens.get? (idx + 1) with
            | none => rw [hget2] at h; cases h; intro r hr; cases hr
            | some song =>
              rw [hget2] at h
              cases hget3 : tokens.get? (idx + 2) with
              | none => rw [hget3] at h; cases h; intro r hr; cases hr
              | some artist =>
                rw [hget3] at h
                cases hrec : scanLoop tokens base false fuel
                    (idx + 3 + (extrasFrom false (tokens.drop (idx + 3))).length) with
                | error e => rw [hrec] at h; cases h
                | ok rows' =>
                  rw [hrec] at h
                  cases h
                  intro r hr
                  rcases List.mem_cons.mp hr with hr1 | hr2
                  · subst hr1
                    exact ⟨isoformat_ne_empty base, htm⟩
                  · exact ih _ _ hrec r hr2
          · simp only [htm, if_false, Bool.false_eq_true] at h
            exact ih _ _ h

/-- C1, counterexample. The claim states a record is emitted only if its time
has hour 00–23 and minute 00–59 and its song and performer are non-empty; on
the tokens `["99:99", "", ""]` the reconstructor emits a record whose time is
`99:99` (hour 99) and whose song and performer are both empty, instead of
dropping it. -/
theorem c1_counterexample :
    parse_rows_v2 ["99:99", "", ""] ⟨2024, 2, 1⟩ =
      Except.ok [{ date := "2024-02-01", time := "99:99", song := "",
                   performer := "", album := "", publisher := "", cdNo := "" }] := rfl

/-- C1, amended. Every record emitted by the in-force record reconstructor
has a non-empty date and a time matching the two-digit `\d\d:\d\d` shape; the
hour/minute ranges are not validated and the song/performer fields are taken
verbatim with no non-emptiness check, and a candidate whose song or performer
token is missing at the end of the token list is dropped entirely. -/
theorem c1_emitted_record_invariant :
    ∀ (tokens : List String) (base : Date) (rows : List Row),
    parse_rows_v2 tokens base = .ok rows →
    ∀ r ∈ rows, r.date ≠ "" ∧ matchesHHMM r.time = true := by
  intro tokens base rows h
  unfold parse_rows_v2 at h
  cases hh : find_header_and_mode tokens with
  | error e => rw [hh] at h; cases h
  | ok p =>
    rw [hh] at h
    obtain ⟨hasDate, idx⟩ := p
    exact scanLoop_ok_invariant tokens base hasDate _ _ rows h

/-- C1, witness for the amended theorem at a concrete input. -/
theorem c1_emitted_record_invariant_witness :
    (⟨"2024-02-01", "16:27", "Song A", "Artist A", "", "", ""⟩ : Row).date ≠ "" ∧
    matchesHHMM (⟨"2024-02-01", "16:27", "Song A", "Artist A", "", "", ""⟩ : Row).time = true :=
  c1_emitted_record_invariant ["16:27", "Song A", "Artist A"] ⟨2024, 2, 1⟩
    [⟨"2024-02-01", "16:27", "Song A", "Artist A", "", "", ""⟩]
    rfl _ (List.mem_singleton.mpr rfl)

/-- Helper: the first-on-tie minimum of the three date candidates is one of
them and realizes the least day distance to the base date. -/
theorem minByDist3_spec (base b c2 c3 : Date) :
    minByDist base b [c2, c3] ∈ [b, c2, c3] ∧
    ∀ x ∈ [b, c2, c3], dayDist (minByDist base b [c2, c3]) base ≤ dayDist x base := by
  simp only [minByDist]
  split_ifs <;> simp_all <;> omega

/-- C2. For every `MM/DD` input whose month/day is constructible in the base
year, the year before and the year after, `mmdd_to_iso` returns the ISO form
of the candidate (first on ties) minimizing the absolute day distance to the
reference date; in particular `12/31` against 2024-01-02 resolves to
2023-12-31 and `01/01` against 2023-12-30 resolves to 2024-01-01. -/
theorem c2_mmdd_to_iso_nearest :
    (∀ (mmdd ms ds : String) (m d : Nat) (base c1 c2 c3 : Date),
      splitSlash mmdd = [ms, ds] →
      pyInt ms = some m → pyInt ds = some d →
      mkDate base.year m d = some c1 →
      mkDate (base.year - 1) m d = some c2 →
      mkDate (base.year + 1) m d = some c3 →
      mmdd_to_iso mmdd base = some (isoformat (minByDist base c1 [c2, c3])) ∧
      minByDist base c1 [c2, c3] ∈ [c1, c2, c3] ∧
      ∀ x ∈ [c1, c2, c3], dayDist (minByDist base c1 [c2, c3]) base ≤ dayDist x base) ∧
    mmdd_to_iso "12/31" ⟨2024, 1, 2⟩ = some "2023-12-31" ∧
    mmdd_to_iso "01/01" ⟨2023, 12, 30⟩ = some "2024-01-01" := by
  refine ⟨?_, rfl, rfl⟩
  intro mmdd ms ds m d base c1 c2 c3 hsplit hm hd h1 h2 h3
  have hmain : mmdd_to_iso mmdd base = some (isoformat (minByDist base c1 [c2, c3])) := by
    simp only [mmdd_to_iso, hsplit, hm, hd, h1, h2, h3, Option.some_bind]
  exact ⟨hmain, (minByDist3_spec base c1 c2 c3).1, (minByDist3_spec base c1 c2 c3).2⟩

/-- C2, witness at a concrete input (`03/05` against 2024-01-10). -/
theorem c2_mmdd_to_iso_nearest_witness :
    mmdd_to_iso "03/05" ⟨2024, 1, 10⟩ =
      some (isoformat (minByDist ⟨2024, 1, 10⟩ ⟨2024, 3, 5⟩ [⟨2023, 3, 5⟩, ⟨2025, 3, 5⟩])) ∧
    minByDist ⟨2024, 1, 10⟩ ⟨2024, 3, 5⟩ [⟨2023, 3, 5⟩, ⟨2025, 3, 5⟩] ∈
      [(⟨2024, 3, 5⟩ : Date), ⟨2023, 3, 5⟩, ⟨2025, 3, 5⟩] ∧
    ∀ x ∈ [(⟨2024, 3, 5⟩ : Date), ⟨2023, 3, 5⟩, ⟨2025, 3, 5⟩],
      dayDist (minByDist ⟨2024, 1, 10⟩ ⟨2024, 3, 5⟩ [⟨2023, 3, 5⟩, ⟨2025, 3, 5⟩]) ⟨2024, 1, 10⟩ ≤
        dayDist x ⟨2024, 1, 10⟩ :=
  c2_mmdd_to_iso_nearest.1 "03/05" "03" "05" 3 5 ⟨2024, 1, 10⟩
    ⟨2024, 3, 5⟩ ⟨2023, 3, 5⟩ ⟨2025, 3, 5⟩ rfl rfl rfl rfl rfl rfl

/-- C3. The global name `find_header_and_mode` is bound nowhere at the top
level of the module, the name `parse_rows` is bound twice (the second
definition shadows the first), and therefore every call of the in-force
`parse_rows` raises `NameError` — while the shadowed first definition would
have returned records on the same input. -/
theorem c3_parse_rows_name_error :
    module_toplevel_names.contains "find_header_and_mode" = false ∧
    (module_toplevel_names.filter (fun s => s == "parse_rows")).length = 2 ∧
    (∀ (tokens : List String) (base : Date),
      parse_rows tokens base = Except.error PyErr.nameError) ∧
    parse_rows_v1 ["16:27", "Song A", "Artist A"] ⟨2024, 2, 1⟩ =
      Except.ok [{ date := "2024-02-01", time := "16:27", song := "Song A",
                   performer := "Artist A", album := "", publisher := "", cdNo := "" }] ∧
    parse_rows ["16:27", "Song A", "Artist A"] ⟨2024, 2, 1⟩ =
      Except.error PyErr.nameError := by
  refine ⟨by decide, by decide, ?_, rfl, rfl⟩
  intro tokens base
  simp only [parse_rows]
  rw [if_neg (by decide : ¬ (module_toplevel_names.contains "find_header_and_mode" = true))]

/-- Helper: characterization of the header-less fallback — the returned
index holds the first token matching either pattern, a date-pattern token
selects the with-date layout, a time-pattern token seen before any
date-pattern token selects the header-less layout. -/
theorem firstPattern_some_spec : ∀ (tokens : List String) (hd : Bool) (i : Nat),
    firstPattern tokens = some (hd, i) →
    ∃ t, tokens.get? i = some t ∧
      (hd = true → matchesMMDD t = true) ∧
      (hd = false → matchesHHMM t = true ∧ matchesMMDD t = false) ∧
      ∀ j, j < i → ∀ u, tokens.get? j = some u →
        matchesMMDD u = false ∧ matchesHHMM u = false := by
  intro tokens
  induction tokens with
  | nil => intro hd i h; simp [firstPattern] at h
  | cons t rest ih =>
    intro hd i h
    rw [firstPattern] at h
    cases hm : matchesMMDD t with
    | true =>
      rw [hm] at h
      simp only [if_true] at h
      cases h
      refine ⟨t, rfl, fun _ => hm, ?_, ?_⟩
      · intro hf; cases hf
      · intro j hj u hu
        exact absurd hj (Nat.not_lt_zero j)
    | false =>
      rw [hm] at h
      simp only [Bool.false_eq_true, if_false] at h
      cases hh : matchesHHMM t with
      | true =>
        rw [hh] at h
        simp only [if_true] at h
        cases h
        refine ⟨t, rfl, ?_, fun _ => ⟨hh, hm⟩, ?_⟩
        · intro hf; cases hf
        · intro j hj u hu
          exact absurd hj (Nat.not_lt_zero j)
      | false =>
        rw [hh] at h
        simp only [Bool.false_eq_true, if_false] at h
        rw [Option.map_eq_some'] at h
        rcases h with ⟨⟨hd', i'⟩, hfp, heq⟩
        cases heq
        obtain ⟨u, hu, hmm1, hmm2, hprev⟩ := ih hd' i' hfp
        refine ⟨u, by simpa using hu, hmm1, hmm2, ?_⟩
        intro j hj v hv
        cases j with
        | zero =>
          simp only [List.get?] at hv
          cases hv
          exact ⟨hm, hh⟩
        | succ j' =>
          refine hprev j' (by omega) v ?_
          simpa using hv

/-- Helper: the header-less fallback fails exactly when no token matches the
date or the time pattern. -/
theorem firstPattern_none_iff : ∀ tokens : List String, firstPattern tokens = none ↔
    ∀ t ∈ tokens, matchesMMDD t = false ∧ matchesHHMM t = false := by
  intro tokens
  induction tokens with
  | nil => simp [firstPattern]
  | cons t rest ih =>
    rw [firstPattern]
    cases hm : matchesMMDD t with
    | true => simp [hm]
    | false =>
      cases hh : matchesHHMM t with
      | true => simp [hm, hh]
      | false => simp [hm, hh, Option.map_eq_none', ih]

/-- C4. The layout detector is a deterministic function choosing one
hypothesis per page: a recognized header run is preferred; with no header
run, the layout is inferred from the first date-or-time-shaped token (a
time-pattern token before any date-pattern token gives the header-less
layout, a date-pattern token gives the with-date layout); with no header run
and no pattern-shaped token at all, it fails with layout-not-recognized. -/
theorem c4_layout_policy :
    (∀ (tokens : List String) (r : Bool × Nat),
      findHeaderRun tokens = some r → find_header_and_mode tokens = .ok r) ∧
    (∀ (tokens : List String) (p : Bool × Nat),
      findHeaderRun tokens = none → firstPattern tokens = some p →
      find_header_and_mode tokens = .ok p) ∧
    (∀ tokens : List String,
      findHeaderRun tokens = none → firstPattern tokens = none →
      find_header_and_mode tokens = .error .layoutNotRecognized) ∧
    (∀ (tokens : List String) (hd : Bool) (i : Nat),
      firstPattern tokens = some (hd, i) →
      ∃ t, tokens.get? i = some t ∧
        (hd = true → matchesMMDD t = true) ∧
        (hd = false → matchesHHMM t = true ∧ matchesMMDD t = false) ∧
        ∀ j, j < i → ∀ u, tokens.get? j = some u →
          matchesMMDD u = false ∧ matchesHHMM u = false) ∧
    (∀ tokens : List String, firstPattern tokens = none ↔
      ∀ t ∈ tokens, matchesMMDD t = false ∧ matchesHHMM t = false) := by
  refine ⟨?_, ?_, ?_, firstPattern_some_spec, firstPattern_none_iff⟩
  · intro tokens r h
    unfold find_header_and_mode
    rw [h]
  · intro tokens p h1 h2
    unfold find_header_and_mode
    rw [h1, h2]
  · intro tokens h1 h2
    unfold find_header_and_mode
    rw [h1, h2]

/-- C4, witness: on the spec's example header the with-date layout is
selected with the data starting right after the four-label run. -/
theorem c4_layout_policy_witness :
    find_header_and_mode ["日期", "播出時間", "歌曲名稱", "演唱(奏)者", "01/05", "16:27"] =
      .ok (true, 4) :=
  c4_layout_policy.1 ["日期", "播出時間", "歌曲名稱", "演唱(奏)者", "01/05", "16:27"]
    (true, 4) rfl

/-- C5, counterexample. The claim states no token positioned after a
stop-word is ever read or incorporated; on `["12:00", "下一頁", "A"]` the
stop-word `下一頁` at position 1 is consumed as the song and the token `A`
positioned after it is incorporated as the performer. -/
theorem c5_counterexample :
    is_stop "下一頁" = true ∧
    parse_rows_v2 ["12:00", "下一頁", "A"] ⟨2024, 2, 1⟩ =
      Except.ok [{ date := "2024-02-01", time := "12:00", song := "下一頁",
                   performer := "A", album := "", publisher := "", cdNo := "" }] :=
  ⟨by decide, rfl⟩

/-- C5, amended. A stop-word token terminates the scan when the cursor meets
it at a record-start position, and ends the extras collection; but a
stop-word sitting in the song or performer slot of a candidate is consumed
into the record rather than terminating the scan. -/
theorem c5_stop_word_scan :
    (∀ (tokens : List String) (base : Date) (hasDate : Bool) (fuel idx : Nat) (t : String),
      tokens.get? idx = some t → is_stop t = true →
      scanLoop tokens base hasDate (fuel + 1) idx = .ok []) ∧
    (∀ (hasDate : Bool) (t : String) (rest : List String),
      is_stop t = true → extrasFrom hasDate (t :: rest) = []) := by
  constructor
  · intro tokens base hasDate fuel idx t hget hstop
    rw [scanLoop, hget]
    simp [hstop]
  · intro hasDate t rest hstop
    simp [extrasFrom, hstop]

/-- C5, witness for the amended theorem at a concrete input. -/
theorem c5_stop_word_scan_witness :
    scanLoop ["下一頁", "16:27", "X", "Y"] ⟨2024, 2, 1⟩ false 5 0 = .ok [] :=
  c5_stop_word_scan.1 ["下一頁", "16:27", "X", "Y"] ⟨2024, 2, 1⟩ false 4 0 "下一頁"
    rfl (by decide)

/-- C6, counterexample. The claim states that a song or performer token
matching the date or time pattern aborts the candidate with no record
emitted; on `["12:00", "13:13", "14:14"]` the in-force reconstructor emits a
record whose song `13:13` and performer `14:14` both match the time pattern. -/
theorem c6_counterexample :
    matchesHHMM "13:13" = true ∧ matchesHHMM "14:14" = true ∧
    parse_rows_v2 ["12:00", "13:13", "14:14"] ⟨2024, 2, 1⟩ =
      Except.ok [{ date := "2024-02-01", time := "12:00", song := "13:13",
                   performer := "14:14", album := "", publisher := "", cdNo := "" }] :=
  ⟨by decide, by decide, rfl⟩

/-- C6, amended. Once date and time are fixed, the in-force reconstructor
takes the immediately following one or two tokens as song and performer
unconditionally — tokens matching the date or time pattern included; the
abort-on-date/time-shaped-fields behavior exists only in the shadowed first
definition of `parse_rows`, which on the counterexample tokens emits nothing
(its zero-row result raises `ValueError`). -/
theorem c6_unconditional_fields :
    (∀ (t s a : String) (base : Date),
      find_header_and_mode [t, s, a] = .ok (false, 0) →
      matchesHHMM t = true → is_stop t = false →
      parse_rows_v2 [t, s, a] base =
        .ok [⟨isoformat base, t, s, a, "", "", ""⟩]) ∧
    parse_rows_v1 ["12:00", "13:13", "14:14"] ⟨2024, 2, 1⟩ = .error .valueError := by
  refine ⟨?_, rfl⟩
  intro t s a base hh ht hstop
  unfold parse_rows_v2
  rw [hh]
  show scanLoop [t, s, a] base false 4 0 = _
  simp only [scanLoop, List.get?, hstop, ht, Bool.false_eq_true, if_false, if_true,
    List.drop, extrasFrom, List.length_nil]
  rfl

/-- C6, witness for the amended theorem: the song slot receives a
date-pattern token and the performer slot an empty token, and the record is
emitted nonetheless. -/
theorem c6_unconditional_fields_witness :
    parse_rows_v2 ["12:00", "03/04", ""] ⟨2024, 2, 1⟩ =
      .ok [⟨isoformat ⟨2024, 2, 1⟩, "12:00", "03/04", "", "", "", ""⟩] :=
  c6_unconditional_fields.1 "12:00" "03/04" "" ⟨2024, 2, 1⟩ rfl (by decide) (by decide)

/-- Helper: the page walker always visits the first page it is given. -/
theorem walkList_head_mem (pages : Nat → List Row) (p : Nat) (rest : List Nat) :
    p ∈ (walkList pages (p :: rest)).1 := by
  rw [walkList]
  split_ifs <;> simp

/-- Helper: the batches kept by the walker are exactly the parses of the
visited pages that produced records, in order. -/
theorem walkList_batches (pages : Nat → List Row) : ∀ ps : List Nat,
    (walkList pages ps).2 =
      ((walkList pages ps).1.filter (fun q => !(pages q).isEmpty)).map pages := by
  intro ps
  induction ps with
  | nil => rfl
  | cons p rest ih =>
    rw [walkList]
    by_cases h1 : (pages p).isEmpty
    · simp [h1]
    · by_cases h2 : (pages p).length < 5
      · simp [h1, h2]
      · simp [h1, h2, ih]

/-- Helper: over a contiguous page range, the walker proceeds from a visited
page `q` to `q + 1` exactly when `q + 1` is within range, page `q` produced
records, and at least five of them. -/
theorem walkList_mem_iff (pages : Nat → List Row) : ∀ (len s q : Nat), s ≤ q →
    ((q + 1) ∈ (walkList pages (List.range' s len)).1 ↔
      (q ∈ (walkList pages (List.range' s len)).1 ∧ q + 1 < s + len ∧
       pages q ≠ [] ∧ ¬ (pages q).length < 5)) := by
  intro len
  induction len with
  | zero => intro s q hq; simp [List.range', walkList]
  | succ len ih =>
    intro s q hq
    have hr : List.range' s (len + 1) = s :: List.range' (s + 1) len := rfl
    rw [hr, walkList]
    by_cases h1 : (pages s).isEmpty
    · simp only [h1, if_true]
      constructor
      · intro hmem
        simp only [List.mem_singleton] at hmem
        omega
      · rintro ⟨hmem, -, hne, -⟩
        simp only [List.mem_singleton] at hmem
        subst hmem
        exact absurd (List.isEmpty_iff.mp h1) hne
    · by_cases h2 : (pages s).length < 5
      · simp only [h1, h2, if_true, if_false, Bool.false_eq_true]
        constructor
        · intro hmem
          simp only [List.mem_singleton] at hmem
          omega
        · rintro ⟨hmem, -, -, hlen⟩
          simp only [List.mem_singleton] at hmem
          subst hmem
          exact absurd h2 hlen
      · simp only [h1, h2, if_false, Bool.false_eq_true]
        by_cases hqs : q = s
        · subst hqs
          have hne : pages q ≠ [] := fun hh => h1 (by simp [hh])
          simp only [List.mem_cons]
          constructor
          · intro hmem
            rcases hmem with hmem | hmem
            · omega
            · refine ⟨by simp, ?_, hne, h2⟩
              cases len with
              | zero => simp [List.range', walkList] at hmem
              | succ len' => omega
          · rintro ⟨-, hlt, -, -⟩
            right
            cases len with
            | zero => omega
            | succ len' =>
              have hr2 : List.range' (q + 1) (len' + 1) = (q + 1) :: List.range' (q + 2) len' := rfl
              rw [hr2]
              exact walkList_head_mem pages (q + 1) _
        · have hsq : s + 1 ≤ q := by omega
          have ihq := ih (s + 1) q hsq
          simp only [List.mem_cons]
          constructor
          · intro hmem
            rcases hmem with hmem | hmem
            · omega
            · obtain ⟨hm, hlt, hne, hlen⟩ := ihq.mp hmem
              exact ⟨Or.inr hm, by omega, hne, hlen⟩
          · rintro ⟨hm | hm, hlt, hne, hlen⟩
            · omega
            · right
              exact ihq.mpr ⟨hm, by omega, hne, hlen⟩

/-- C7. Pagination policy of the page walker: page 1 is always fetched; the
walker proceeds from a fetched page `q` to `q + 1` exactly when the page
limit is not yet reached, page `q` yielded records, and at least five of
them (so it stops exactly on zero records, on fewer than five, or at the
limit); every non-empty batch fetched is kept (zero records on a later page
is a soft stop preserving the accumulated records); and the whole run fails
with `RuntimeError` exactly when the very first page yields zero records. -/
theorem c7_pagination_stop :
    ∀ (pages : Nat → List Row) (maxPages : Nat), 1 ≤ maxPages →
    1 ∈ (fetch_dt_all_pages pages maxPages).1 ∧
    (∀ q, 1 ≤ q →
      ((q + 1) ∈ (fetch_dt_all_pages pages maxPages).1 ↔
        (q ∈ (fetch_dt_all_pages pages maxPages).1 ∧ q + 1 ≤ maxPages ∧
         pages q ≠ [] ∧ 5 ≤ (pages q).length))) ∧
    ((fetch_dt_all_pages pages maxPages).2 =
      ((fetch_dt_all_pages pages maxPages).1.filter (fun q => !(pages q).isEmpty)).map pages) ∧
    (mainResult pages maxPages = .error .runtimeError ↔ pages 1 = []) := by
  intro pages maxPages hmax
  obtain ⟨k, rfl⟩ : ∃ k, maxPages = k + 1 := ⟨maxPages - 1, by omega⟩
  have hr : List.range' 1 (k + 1) = 1 :: List.range' 2 k := rfl
  refine ⟨?_, ?_, walkList_batches pages _, ?_⟩
  · show 1 ∈ (walkList pages (List.range' 1 (k + 1))).1
    rw [hr]
    exact walkList_head_mem pages 1 _
  · intro q hq
    have hmi := walkList_mem_iff pages (k + 1) 1 q hq
    constructor
    · intro h
      obtain ⟨a, b, c, d⟩ := hmi.mp h
      exact ⟨a, by omega, c, by omega⟩
    · rintro ⟨a, b, c, d⟩
      exact hmi.mpr ⟨a, by omega, c, by omega⟩
  · show (if ((walkList pages (List.range' 1 (k + 1))).2.flatten).isEmpty then
        Except.error (α := List Row) PyErr.runtimeError
      else Except.ok ((walkList pages (List.range' 1 (k + 1))).2.flatten)) =
        Except.error PyErr.runtimeError ↔ pages 1 = []
    rw [hr, walkList]
    by_cases h1 : (pages 1).isEmpty
    · simp only [h1, if_true]
      simp [List.isEmpty_iff.mp h1]
    · by_cases h2 : (pages 1).length < 5
      · simp only [h1, h2, if_true, if_false, Bool.false_eq_true]
        have hne : pages 1 ≠ [] := fun hh => h1 (by simp [hh])
        simp [List.isEmpty_iff, hne]
      · simp only [h1, h2, if_false, Bool.false_eq_true]
        have hne : pages 1 ≠ [] := fun hh => h1 (by simp [hh])
        simp [List.isEmpty_iff, List.append_eq_nil, hne]

/-- C7, witness: with an oracle yielding no records at all and a three-page
limit, page 1 is still fetched and the run fails. -/
theorem c7_pagination_stop_witness :
    1 ∈ (fetch_dt_all_pages (fun _ => []) 3).1 ∧
    (mainResult (fun _ => ([] : List Row)) 3 = .error .runtimeError ↔ ([] : List Row) = []) :=
  ⟨(c7_pagination_stop (fun _ => []) 3 (by decide)).1,
   (c7_pagination_stop (fun _ => []) 3 (by decide)).2.2.2⟩

/-- C9. Spec-modelled text repair: on every fragment the result is either the
whitespace-normalized fragment, or a re-decoding accepted precisely because
it gained an ideographic character the cleaned fragment lacks; the function
is total over all inputs and all decoder behaviors (Python-side failures are
the decoder returning `none`), modelling "never raises". -/
theorem c9_fix_text_total :
    ∀ (decode : String → Option String) (s : String),
      fix_text decode s = clean_fragment s ∨
      (hasIdeograph (fix_text decode s) = true ∧
       hasIdeograph (clean_fragment s) = false) := by
  intro decode s
  unfold fix_text
  by_cases hm : looksMojibake (clean_fragment s)
  · have hni : hasIdeograph (clean_fragment s) = false := by
      have := hm
      simp only [looksMojibake, Bool.and_eq_true, Bool.not_eq_true'] at this
      exact this.1
    simp only [hm, if_true]
    cases hdec : decode (clean_fragment s) with
    | none => left; rfl
    | some t =>
      by_cases hi : hasIdeograph t
      · right
        refine ⟨?_, hni⟩
        simp [hi]
      · left
        simp [hi]
  · simp [hm]

/-- Helper: `keep="last"` semantics of the dedupe — a row occurrence is in
the result exactly when no later row of the input shares its key, whatever
the other fields hold. -/
theorem mem_dedupKeepLast (key : DRow → List String) :
    ∀ (rows : List DRow) (r : DRow),
      r ∈ dedupKeepLast key rows ↔
        ∃ l₁ l₂, rows = l₁ ++ r :: l₂ ∧ ∀ s ∈ l₂, key s ≠ key r := by
  intro rows
  induction rows with
  | nil =>
    intro r
    simp [dedupKeepLast]
  | cons a rest ih =>
    intro r
    rw [dedupKeepLast]
    by_cases hany : rest.any (fun s => key s == key a)
    · simp only [hany, if_true]
      rw [ih]
      constructor
      · rintro ⟨l₁, l₂, hsplit, hlast⟩
        exact ⟨a :: l₁, l₂, by rw [hsplit]; rfl, hlast⟩
      · rintro ⟨l₁, l₂, hsplit, hlast⟩
        cases l₁ with
        | nil =>
          simp only [List.nil_append, List.cons.injEq] at hsplit
          obtain ⟨rfl, rfl⟩ := hsplit
          rw [List.any_eq_true] at hany
          obtain ⟨s, hs, hks⟩ := hany
          exact absurd (by simpa using hks) (hlast s hs)
        | cons b l₁' =>
          simp only [List.cons_append, List.cons.injEq] at hsplit
          obtain ⟨rfl, hsplit⟩ := hsplit
          exact ⟨l₁', l₂, hsplit, hlast⟩
    · simp only [hany, if_false, Bool.false_eq_true]
      simp only [List.mem_cons]
      constructor
      · intro hmem
        rcases hmem with rfl | hmem
        · refine ⟨[], rest, rfl, ?_⟩
          intro s hs hk
          exact hany (List.any_eq_true.mpr ⟨s, hs, by simp [hk]⟩)
        · obtain ⟨l₁, l₂, hsplit, hlast⟩ := ih r |>.mp hmem
          exact ⟨a :: l₁, l₂, by rw [hsplit]; rfl, hlast⟩
      · rintro ⟨l₁, l₂, hsplit, hlast⟩
        cases l₁ with
        | nil =>
          simp only [List.nil_append, List.cons.injEq] at hsplit
          obtain ⟨rfl, rfl⟩ := hsplit
          exact Or.inl rfl
        | cons b l₁' =>
          simp only [List.cons_append, List.cons.injEq] at hsplit
          obtain ⟨rfl, hsplit⟩ := hsplit
          exact Or.inr ((ih r).mpr ⟨l₁', l₂, hsplit, hlast⟩)

/-- C8. When all four key columns are present in the combined frame, the
merge deduplicates the concatenation (old rows first, new rows after) keyed
on (date, time, song, performer); when none is present it falls back to
full-row deduplication; and the `keep="last"` semantics retains exactly the
occurrence with no later row sharing its key projection — so on a key
collision the later-supplied record wins even when non-key fields differ. -/
theorem c8_merge_dedupe :
    (∀ (old newDf : DFrame),
      (∀ k ∈ KEY_COLS, (dfConcat old newDf).cols.contains k = true) →
      merge_dedupe (some old) newDf =
        ⟨(dfConcat old newDf).cols,
         dedupKeepLast (projCols KEY_COLS) (old.rows ++ newDf.rows)⟩) ∧
    (∀ (old newDf : DFrame),
      (∀ k ∈ KEY_COLS, (dfConcat old newDf).cols.contains k = false) →
      merge_dedupe (some old) newDf =
        ⟨(dfConcat old newDf).cols,
         dedupKeepLast (projCols (dfConcat old newDf).cols) (old.rows ++ newDf.rows)⟩) ∧
    (∀ (key : DRow → List String) (rows : List DRow) (r : DRow),
      r ∈ dedupKeepLast key rows ↔
        ∃ l₁ l₂, rows = l₁ ++ r :: l₂ ∧ ∀ s ∈ l₂, key s ≠ key r) := by
  refine ⟨?_, ?_, mem_dedupKeepLast⟩
  · intro old newDf hkeys
    unfold merge_dedupe
    have hfilter : KEY_COLS.filter (fun k => (dfConcat old newDf).cols.contains k) = KEY_COLS :=
      List.filter_eq_self.mpr hkeys
    simp only [hfilter]
    rw [if_neg (by decide : ¬ (KEY_COLS.isEmpty = true))]
    rfl
  · intro old newDf hkeys
    unfold merge_dedupe
    have hfilter : KEY_COLS.filter (fun k => (dfConcat old newDf).cols.contains k) = [] := by
      rw [List.filter_eq_nil_iff]
      intro k hk
      simpa using hkeys k hk
    simp only [hfilter]
    rfl

/-- C8, witness: two single-row frames sharing the four key fields but
differing in the album column; the merge keys on the four columns. -/
theorem c8_merge_dedupe_witness :
    merge_dedupe
      (some ⟨KEY_COLS ++ ["專輯"],
        [[("日期", "d1"), ("播出時間", "t1"), ("歌曲名稱", "s1"), ("演唱(奏)者", "p1"),
          ("專輯", "old")]]⟩)
      ⟨KEY_COLS ++ ["專輯"],
        [[("日期", "d1"), ("播出時間", "t1"), ("歌曲名稱", "s1"), ("演唱(奏)者", "p1"),
          ("專輯", "new")]]⟩ =
      ⟨(dfConcat
          ⟨KEY_COLS ++ ["專輯"],
            [[("日期", "d1"), ("播出時間", "t1"), ("歌曲名稱", "s1"), ("演唱(奏)者", "p1"),
              ("專輯", "old")]]⟩
          ⟨KEY_COLS ++ ["專輯"],
            [[("日期", "d1"), ("播出時間", "t1"), ("歌曲名稱", "s1"), ("演唱(奏)者", "p1"),
              ("專輯", "new")]]⟩).cols,
       dedupKeepLast (projCols KEY_COLS)
         ([[("日期", "d1"), ("播出時間", "t1"), ("歌曲名稱", "s1"), ("演唱(奏)者", "p1"),
            ("專輯", "old")]] ++
          [[("日期", "d1"), ("播出時間", "t1"), ("歌曲名稱", "s1"), ("演唱(奏)者", "p1"),
            ("專輯", "new")]])⟩ :=
  c8_merge_dedupe.1
    ⟨KEY_COLS ++ ["專輯"],
      [[("日期", "d1"), ("播出時間", "t1"), ("歌曲名稱", "s1"), ("演唱(奏)者", "p1"),
        ("專輯", "old")]]⟩
    ⟨KEY_COLS ++ ["專輯"],
      [[("日期", "d1"), ("播出時間", "t1"), ("歌曲名稱", "s1"), ("演唱(奏)者", "p1"),
        ("專輯", "new")]]⟩
    (by decide)

/-- C10. For every reference date, `mmdd_to_iso "02/29" base` raises
`ValueError` (modelled as `none`): the three candidate constructions are
eager, and whichever of the three consecutive years is considered, either the
base year is not a leap year (the first construction raises) or it is, and
then the preceding year is not (the second construction raises). -/
theorem c10_feb29_value_error : ∀ base : Date, mmdd_to_iso "02/29" base = none := by
  intro base
  have hsplit : splitSlash "02/29" = ["02", "29"] := rfl
  have h2 : pyInt "02" = some 2 := rfl
  have h29 : pyInt "29" = some 29 := rfl
  simp only [mmdd_to_iso, hsplit, h2, h29, Option.some_bind]
  cases hd : dateValid base.year 2 29 with
  | false => simp [mkDate, hd]
  | true =>
    have hdm : daysInMonth base.year 2 = if isLeap base.year then 29 else 28 := by
      simp [daysInMonth]
    have hd' := hd
    simp only [dateValid, hdm, Bool.and_eq_true, decide_eq_true_eq] at hd'
    have hleap : isLeap base.year = true := by
      by_contra h
      rw [Bool.not_eq_true] at h
      simp [h] at hd'
    have hy4 : base.year % 4 = 0 := by
      simp only [isLeap, Bool.or_eq_true, Bool.and_eq_true, beq_iff_eq, bne_iff_ne] at hleap
      omega
    have hy1 : 1 ≤ base.year := hd'.1.1.1.1.1
    have hnl : isLeap (base.year - 1) = false := by
      simp only [isLeap, Bool.or_eq_false_iff, Bool.and_eq_false_iff, beq_eq_false_iff_ne,
        bne_eq_false_iff_eq, ne_eq]
      omega
    have hd2 : dateValid (base.year - 1) 2 29 = false := by
      have h28 : daysInMonth (base.year - 1) 2 = 28 := by simp [daysInMonth, hnl]
      simp [dateValid, h28]
    simp [mkDate, hd, hd2]

end IRadio
